import Mathlib

/-!
Verification of the provider-routing streaming relay in `api/chat.js`.

The embedding is a shallow, purely functional translation of the source:

* JavaScript strings are modelled as `String` / `List Char` (the normalizers
  work on `List Char` so that chunk concatenation is plain list append);
* `JSON.parse` is modelled by an executable recursive-descent parser over an
  inductive `Json` type, faithful to RFC 8259 as implemented by JS
  (leading-zero rejection, escape handling, last-wins duplicate object keys,
  whole-input consumption with surrounding whitespace allowed);
* JavaScript number arithmetic in the cost block is modelled exactly over `ℚ`,
  with `Option ℚ` so that `none` stands for `NaN` (the result of arithmetic
  on a missing pricing field), and `toFixed(6)` is modelled by `toFixed6`;
* `process.env` is modelled as `String → Bool` giving the truthiness of each
  environment variable (the source only ever tests truthiness of env keys);
* the `ReadableStream` bodies are modelled as functions from the list of
  upstream chunks (plus an optional mid-stream failure) to the list of
  emitted canonical events.
-/

namespace Soma

/-- A parsed JSON value.  A number is kept exactly as `mant * 10 ^ exp`. -/
inductive Json where
  | null
  | bool (b : Bool)
  | num (mant : Int) (exp : Int)
  | str (s : String)
  | arr (items : List Json)
  | obj (fields : List (String × Json))

/-- JSON whitespace (the four characters `JSON.parse` skips). -/
def isWsCh (c : Char) : Bool := c = ' ' ∨ c = '\n' ∨ c = '\t' ∨ c = '\r'

/-- ASCII decimal digit test via code points (eases arithmetic reasoning). -/
def isDigitCh (c : Char) : Bool := 48 ≤ c.toNat ∧ c.toNat ≤ 57

/-- Drop leading JSON whitespace. -/
def skipWs : List Char → List Char
  | c :: cs => if isWsCh c then skipWs cs else c :: cs
  | [] => []

/-- Greedily take leading decimal digits. -/
def takeDigits : List Char → List Char × List Char
  | c :: cs =>
    if isDigitCh c then
      let p := takeDigits cs
      (c :: p.1, p.2)
    else ([], c :: cs)
  | [] => ([], [])

/-- Decimal value of a digit string. -/
def digitsVal (ds : List Char) : Nat :=
  ds.foldl (fun acc c => acc * 10 + (c.toNat - 48)) 0

/-- Value of one hexadecimal digit, if any. -/
def hexVal (c : Char) : Option Nat :=
  if 48 ≤ c.toNat ∧ c.toNat ≤ 57 then some (c.toNat - 48)
  else if 97 ≤ c.toNat ∧ c.toNat ≤ 102 then some (c.toNat - 87)
  else if 65 ≤ c.toNat ∧ c.toNat ≤ 70 then some (c.toNat - 55)
  else none

/-- The single-character JSON string escapes. -/
def escCh (c : Char) : Option Char :=
  if c = '"' then some '"'
  else if c = '\\' then some '\\'
  else if c = '/' then some '/'
  else if c = 'n' then some '\n'
  else if c = 't' then some '\t'
  else if c = 'r' then some '\r'
  else if c = 'b' then some (Char.ofNat 8)
  else if c = 'f' then some (Char.ofNat 12)
  else none

/-- Body of a JSON string after the opening quote.  `acc` holds the decoded
characters in reverse.  Unescaped control characters are rejected, as by
`JSON.parse`. -/
def parseStringBody (acc : List Char) : List Char → Option (String × List Char)
  | '"' :: r => some ((acc.reverse).asString, r)
  | '\\' :: 'u' :: a :: b :: c :: d :: r =>
    match hexVal a, hexVal b, hexVal c, hexVal d with
    | some va, some vb, some vc, some vd =>
      parseStringBody (Char.ofNat (((va * 16 + vb) * 16 + vc) * 16 + vd) :: acc) r
    | _, _, _, _ => none
  | '\\' :: e :: r =>
    match escCh e with
    | some ch => parseStringBody (ch :: acc) r
    | none => none
  | c :: r => if c.toNat < 32 then none else parseStringBody (c :: acc) r
  | [] => none

/-- The optional fraction: `.` followed by at least one digit, or nothing. -/
def numFrac (r1 : List Char) : Option (List Char × List Char) :=
  match r1 with
  | c :: r2 =>
    if c = '.' then
      match takeDigits r2 with
      | ([], _) => none
      | (fds, r3) => some (fds, r3)
    else some ([], c :: r2)
  | [] => some ([], [])

/-- After `e`/`E`: an optional sign then at least one digit. -/
def numExpTail (cs : List Char) : Option (Int × List Char) :=
  let sgn : Int × List Char :=
    match cs with
    | c :: r =>
      if c = '+' then (1, r) else if c = '-' then (-1, r) else (1, c :: r)
    | [] => (1, [])
  match takeDigits sgn.2 with
  | ([], _) => none
  | (eds, r) => some (sgn.1 * (digitsVal eds : Int), r)

/-- The optional exponent part, or nothing. -/
def numExpo (r3 : List Char) : Option (Int × List Char) :=
  match r3 with
  | c :: r4 => if c = 'e' ∨ c = 'E' then numExpTail r4 else some (0, c :: r4)
  | [] => some (0, [])

/-- A JSON number after the optional minus: integer part without leading
zeros, optional fraction, optional exponent. -/
def numTail (neg : Bool) (cs : List Char) : Option (Json × List Char) :=
  match takeDigits cs with
  | ([], _) => none
  | (d :: ds, r1) =>
    if d = '0' ∧ ds ≠ [] then none
    else
      match numFrac r1 with
      | none => none
      | some (fds, r3) =>
        match numExpo r3 with
        | none => none
        | some (e, r5) =>
          some (.num ((if neg then -1 else 1) * (digitsVal (d :: ds ++ fds) : Int))
            (e - (fds.length : Int)), r5)

/-- A complete JSON number literal. -/
def parseNumber (cs : List Char) : Option (Json × List Char) :=
  match cs with
  | c :: r => if c = '-' then numTail true r else numTail false (c :: r)
  | [] => none

mutual

/-- One JSON value (after optional leading whitespace), with unconsumed rest. -/
def parseVal : Nat → List Char → Option (Json × List Char)
  | 0, _ => none
  | f + 1, cs =>
    match skipWs cs with
    | 'n' :: 'u' :: 'l' :: 'l' :: r => some (.null, r)
    | 't' :: 'r' :: 'u' :: 'e' :: r => some (.bool true, r)
    | 'f' :: 'a' :: 'l' :: 's' :: 'e' :: r => some (.bool false, r)
    | '"' :: r =>
      match parseStringBody [] r with
      | some (s, r1) => some (.str s, r1)
      | none => none
    | '[' :: r =>
      match skipWs r with
      | ']' :: r1 => some (.arr [], r1)
      | other =>
        match parseElems f other with
        | some (es, r1) => some (.arr es, r1)
        | none => none
    | '\x7b' :: r =>
      match skipWs r with
      | '\x7d' :: r1 => some (.obj [], r1)
      | other =>
        match parseMembers f other with
        | some (ms, r1) => some (.obj ms, r1)
        | none => none
    | c :: r => if c = '-' ∨ isDigitCh c then parseNumber (c :: r) else none
    | [] => none

/-- One-or-more comma-separated array elements, through the closing `]`. -/
def parseElems : Nat → List Char → Option (List Json × List Char)
  | 0, _ => none
  | f + 1, cs =>
    match parseVal f cs with
    | none => none
    | some (v, r) =>
      match skipWs r with
      | ',' :: r1 =>
        match parseElems f r1 with
        | some (vs, r2) => some (v :: vs, r2)
        | none => none
      | ']' :: r1 => some ([v], r1)
      | _ => none

/-- One-or-more comma-separated object members, through the closing brace. -/
def parseMembers : Nat → List Char → Option (List (String × Json) × List Char)
  | 0, _ => none
  | f + 1, cs =>
    match skipWs cs with
    | '"' :: r =>
      match parseStringBody [] r with
      | none => none
      | some (k, r1) =>
        match skipWs r1 with
        | ':' :: r2 =>
          match parseVal f r2 with
          | none => none
          | some (v, r3) =>
            match skipWs r3 with
            | ',' :: r4 =>
              match parseMembers f r4 with
              | some (ms, r5) => some ((k, v) :: ms, r5)
              | none => none
            | '\x7d' :: r4 => some ([(k, v)], r4)
            | _ => none
        | _ => none
    | _ => none

end

/-- `JSON.parse` on a character list: one value, then only whitespace. -/
def jsonParseChars (cs : List Char) : Option Json :=
  match parseVal (2 * cs.length + 2) cs with
  | some (j, r) => if skipWs r = [] then some j else none
  | none => none

/-- `JSON.parse` on a string. -/
def jsonParse (s : String) : Option Json := jsonParseChars s.toList

/-! ### JavaScript property access and truthiness -/

/-- `x.name` on a parsed JSON value: object field access (last occurrence
wins, as in `JSON.parse`); anything else gives `undefined`, i.e. `none`. -/
def jsField (name : String) : Json → Option Json
  | .obj fs => (fs.reverse.find? (fun kv => kv.1 = name)).map (fun kv => kv.2)
  | _ => none

/-- `x?.[0]`: first element of an array, or the `"0"` property of an object
(JS numeric indexing coerces the key to a string); `undefined` otherwise. -/
def jsIndex0 : Json → Option Json
  | .arr items => items.head?
  | .obj fs => (fs.reverse.find? (fun kv => kv.1 = "0")).map (fun kv => kv.2)
  | _ => none

/-- JavaScript truthiness of a parsed JSON value. -/
def jsTruthy : Json → Bool
  | .null => false
  | .bool b => b
  | .num m _ => m ≠ 0
  | .str s => s ≠ ""
  | .arr _ => true
  | .obj _ => true

/-- `parsed.choices?.[0]?.delta?.content` (the OpenAI-style delta text). -/
def choicesDeltaContent (j : Json) : Option Json :=
  (((jsField "choices" j).bind jsIndex0).bind (jsField "delta")).bind (jsField "content")

/-- `item.candidates?.[0]?.content?.parts?.[0]?.text` (the Gemini part text). -/
def candidatesText (j : Json) : Option Json :=
  (((((jsField "candidates" j).bind jsIndex0).bind
    (jsField "content")).bind (jsField "parts")).bind jsIndex0).bind (jsField "text")

/-! ### The data model of the relay -/

/-- One inbound conversation message (`{role, content}`). -/
structure Message where
  role : String
  content : String
deriving DecidableEq

/-- The parsed POST body of the relay endpoint. -/
structure ChatRequest where
  messages : List Message
  system : Option String
  provider : Option String
  model : Option String
deriving DecidableEq

/-- JS `a || b` for an optional string: the default replaces both a missing
and an empty (falsy) value. -/
def jsOr (a : Option String) (b : String) : String :=
  match a with
  | some s => if s = "" then b else s
  | none => b

/-- JS truthiness of an optional string (`undefined` and `""` are falsy). -/
def jsStrTruthy (a : Option String) : Bool :=
  match a with
  | some s => s ≠ ""
  | none => false

/-! ### Provider selection (`selectProvider`) and the credential check

`env k` is the truthiness of `process.env[k]` (the source only ever tests
presence/truthiness of environment variables). -/

/-- `selectProvider` from `api/chat.js`: `auto` resolves by the fixed priority
Claude > OpenAI > Gemini > Grok with fallback `claude`; anything else is
returned unchanged. -/
def selectProvider (requestedProvider : String) (env : String → Bool) : String :=
  if requestedProvider = "auto" then
    if env "ANTHROPIC_API_KEY" then "claude"
    else if env "OPENAI_API_KEY" then "openai"
    else if env "GOOGLE_API_KEY" then "gemini"
    else if env "XAI_API_KEY" then "grok"
    else "claude"
  else requestedProvider

/-- The handler's `keyMap`: credential environment variable per provider. -/
def keyMap (provider : String) : Option String :=
  if provider = "claude" then some "ANTHROPIC_API_KEY"
  else if provider = "openai" then some "OPENAI_API_KEY"
  else if provider = "gemini" then some "GOOGLE_API_KEY"
  else if provider = "grok" then some "XAI_API_KEY"
  else none

/-! ### Request translators -/

/-- A structured Claude content block (`{type, text, cache_control?}`);
`cacheControl = some "ephemeral"` models `cache_control: {type: 'ephemeral'}`. -/
structure ClaudeBlock where
  type : String
  text : String
  cacheControl : Option String
deriving DecidableEq

/-- Claude message content: either the caller's plain string (the message
object forwarded unchanged) or a list of structured blocks. -/
inductive ClaudeContent where
  | plain (s : String)
  | blocks (bs : List ClaudeBlock)
deriving DecidableEq

/-- One message of the Claude upstream payload. -/
structure ClaudeMessage where
  role : String
  content : ClaudeContent
deriving DecidableEq

/-- The Claude upstream request (`requestOptions` in `handleClaude`). -/
structure ClaudeRequest where
  model : String
  maxTokens : Nat
  messages : List ClaudeMessage
  system : Option (List ClaudeBlock)
deriving DecidableEq

/-- `formattedMessages` of `handleClaude`: the second-to-last message is
rewritten into a cache-annotated block when there is more than one message;
every other message is forwarded unchanged. -/
def claudeFormatMessages (messages : List Message) : List ClaudeMessage :=
  messages.mapIdx (fun idx msg =>
    if idx = messages.length - 2 ∧ messages.length > 1 then
      ⟨msg.role, .blocks [⟨"text", msg.content, some "ephemeral"⟩]⟩
    else ⟨msg.role, .plain msg.content⟩)

/-- `handleClaude`: build the upstream request (the SDK call's options). -/
def handleClaude (messages : List Message) (system : Option String)
    (model : Option String) : ClaudeRequest :=
  { model := jsOr model "claude-sonnet-4-5-20250514"
    maxTokens := 8192
    messages := claudeFormatMessages messages
    system :=
      if jsStrTruthy system then
        some [⟨"text", system.getD "", some "ephemeral"⟩]
      else none }

/-- An OpenAI-compatible chat-completions request body. -/
structure OpenAIRequest where
  model : String
  messages : List Message
  maxTokens : Nat
  stream : Bool
deriving DecidableEq

/-- `handleOpenAI`: prepend the system prompt as a leading `system` message. -/
def handleOpenAI (messages : List Message) (system : Option String)
    (model : Option String) : OpenAIRequest :=
  { model := jsOr model "gpt-4o"
    messages :=
      if jsStrTruthy system then ⟨"system", system.getD ""⟩ :: messages
      else messages
    maxTokens := 8192
    stream := true }

/-- `handleGrok`: identical shape to `handleOpenAI`, xAI default model. -/
def handleGrok (messages : List Message) (system : Option String)
    (model : Option String) : OpenAIRequest :=
  { model := jsOr model "grok-beta"
    messages :=
      if jsStrTruthy system then ⟨"system", system.getD ""⟩ :: messages
      else messages
    maxTokens := 8192
    stream := true }

/-- One entry of the Gemini `contents` array (`{role, parts: [{text}]}`). -/
structure GeminiContent where
  role : String
  parts : List String
deriving DecidableEq

/-- The Gemini upstream request body. -/
structure GeminiRequest where
  modelId : String
  contents : List GeminiContent
  systemInstruction : Option (List String)
  maxOutputTokens : Nat
deriving DecidableEq

/-- `handleGemini`: `assistant` becomes `model`, every other role `user`;
the system prompt goes into a separate `systemInstruction` field. -/
def handleGemini (messages : List Message) (system : Option String)
    (model : Option String) : GeminiRequest :=
  { modelId := jsOr model "gemini-1.5-pro"
    contents := messages.map (fun m =>
      ⟨if m.role = "assistant" then "model" else "user", [m.content]⟩)
    systemInstruction :=
      if jsStrTruthy system then some [system.getD ""] else none
    maxOutputTokens := 8192 }

/-! ### Pricing table and cost accounting

JS number arithmetic is modelled over `Option ℚ`: `some q` is the exact value
of the double computation (all quantities in the cost block are small decimal
fractions), and `none` models `NaN`, which arises exactly when a missing
(`undefined`) pricing field enters the arithmetic. -/

/-- A row of `PRICING` (per-million-token prices); the OpenAI rows carry no
cache prices. -/
structure PricingRow where
  input : ℚ
  output : ℚ
  cache_write : Option ℚ
  cache_read : Option ℚ
deriving DecidableEq

/-- The `PRICING` table of `api/chat.js`. -/
def PRICING (model : String) : Option PricingRow :=
  if model = "claude-sonnet-4-5-20250514" then
    some ⟨3.00, 15.00, some 3.75, some 0.30⟩
  else if model = "claude-haiku-3-5-20241022" then
    some ⟨0.80, 4.00, some 1.00, some 0.08⟩
  else if model = "gpt-4o" then some ⟨2.50, 10.00, none, none⟩
  else if model = "gpt-4o-mini" then some ⟨0.15, 0.60, none, none⟩
  else none

/-- `PRICING[modelId] || PRICING['claude-sonnet-4-5-20250514']` (line 234):
the default Claude model's row backs any model without its own row. -/
def claudePricingFor (modelId : String) : PricingRow :=
  match PRICING modelId with
  | some p => p
  | none => ⟨3.00, 15.00, some 3.75, some 0.30⟩

/-- JS `+` with `NaN` propagation. -/
def jadd : Option ℚ → Option ℚ → Option ℚ
  | some a, some b => some (a + b)
  | _, _ => none

/-- JS `-` with `NaN` propagation. -/
def jsub : Option ℚ → Option ℚ → Option ℚ
  | some a, some b => some (a - b)
  | _, _ => none

/-- JS `*` with `NaN` propagation (`0 * undefined` is `NaN`, not `0`). -/
def jmul : Option ℚ → Option ℚ → Option ℚ
  | some a, some b => some (a * b)
  | _, _ => none

/-- The ASCII digit character of `d % 10`. -/
def digitCh (d : Nat) : Char := Char.ofNat (48 + d % 10)

/-- `m % 1000000` written as exactly six decimal digits. -/
def pad6 (m : Nat) : String :=
  ⟨[digitCh (m / 100000), digitCh (m / 10000), digitCh (m / 1000),
    digitCh (m / 100), digitCh (m / 10), digitCh m]⟩

/-- `q.toFixed(6)` for a nonnegative exact value: round half-up at the sixth
decimal, then print `intpart.xxxxxx`. -/
def fixed6 (q : ℚ) : String :=
  let n : Nat := (⌊q * 1000000 + 1 / 2⌋).toNat
  Nat.repr (n / 1000000) ++ "." ++ pad6 (n % 1000000)

/-- JS `toFixed(6)`: sign split (negatives round on the magnitude, as in the
ECMAScript algorithm), `NaN` prints `"NaN"`. -/
def toFixed6 : Option ℚ → String
  | none => "NaN"
  | some q => if q < 0 then "-" ++ fixed6 (-q) else fixed6 q

/-- The usage counters of the Claude final message. -/
structure Usage where
  input_tokens : Nat
  output_tokens : Nat
  cache_creation_input_tokens : Option Nat
  cache_read_input_tokens : Option Nat
deriving DecidableEq

/-- The `cost` object of the `usage` frame: six fixed-point strings. -/
structure CostOut where
  input : String
  output : String
  cache_write : String
  cache_read : String
  total : String
  savings : String
deriving DecidableEq

/-- The cost block of the Claude branch (lines 251-275): per-category costs,
their total, and the cache savings, each rendered with `toFixed(6)`. -/
def computeCost (usage : Usage) (pricing : PricingRow) : CostOut :=
  let inputCost : Option ℚ :=
    some ((usage.input_tokens : ℚ) / 1000000 * pricing.input)
  let outputCost : Option ℚ :=
    some ((usage.output_tokens : ℚ) / 1000000 * pricing.output)
  let cacheWriteCost :=
    jmul (some ((usage.cache_creation_input_tokens.getD 0 : ℚ) / 1000000))
      pricing.cache_write
  let cacheReadCost :=
    jmul (some ((usage.cache_read_input_tokens.getD 0 : ℚ) / 1000000))
      pricing.cache_read
  let totalCost := jadd (jadd (jadd inputCost outputCost) cacheWriteCost) cacheReadCost
  let savingsFromCache :=
    jmul (some ((usage.cache_read_input_tokens.getD 0 : ℚ) / 1000000))
      (jsub (some pricing.input) pricing.cache_read)
  { input := toFixed6 inputCost
    output := toFixed6 outputCost
    cache_write := toFixed6 cacheWriteCost
    cache_read := toFixed6 cacheReadCost
    total := toFixed6 totalCost
    savings := toFixed6 savingsFromCache }

/-! ### Canonical stream events and the three normalizers -/

/-- The `usage` event payload: raw counters, the model id, and the cost. -/
structure UsageOut where
  usage : Usage
  model : String
  cost : CostOut
deriving DecidableEq

/-- A canonical outbound SSE event (`data: <json>` frame or the terminal
`data: [DONE]` frame). -/
inductive Event where
  | text (content : Json) (provider : String)
  | usage (record : UsageOut)
  | error (msg : String)
  | done

/-- One chunk of the Claude SDK's typed event stream, as read by the loop
(`chunk.type`, `chunk.delta.type`, `chunk.delta.text`). -/
structure ClaudeChunk where
  type : String
  delta_type : String
  delta_text : String

/-- A finite Claude upstream stream: the chunks the iteration yielded, an
optional failure thrown after them, and the final message's usage (when the
iteration completed). -/
structure ClaudeUpstream where
  chunks : List ClaudeChunk
  err : Option String
  finalUsage : Option Usage

/-- The text events the Claude read loop enqueues: one per
`content_block_delta` chunk whose delta is a `text_delta`. -/
def claudeTextEvents (chunks : List ClaudeChunk) : List Event :=
  chunks.filterMap (fun c =>
    if c.type = "content_block_delta" ∧ c.delta_type = "text_delta" then
      some (.text (.str c.delta_text) "claude")
    else none)

/-- The Claude `ReadableStream` body (lines 236-286): on success, text events,
then a usage event when the final message carries usage, then `[DONE]`; when
the iteration throws, the events so far, one `error` event, and the stream is
closed with no `[DONE]`. -/
def claudeNormalize (u : ClaudeUpstream) (modelId : String) : List Event :=
  let pricing := claudePricingFor modelId
  match u.err with
  | some m => claudeTextEvents u.chunks ++ [.error m]
  | none =>
    claudeTextEvents u.chunks ++
      (match u.finalUsage with
        | some usage => [.usage ⟨usage, modelId, computeCost usage pricing⟩]
        | none => []) ++ [.done]

/-- A finite raw upstream byte stream, decoded to text chunks, with an
optional transport failure thrown after the listed chunks. -/
structure ByteUpstream where
  chunks : List String
  err : Option String

/-- JS `chunk.split('\n')`: split at every newline, keeping empty pieces. -/
def splitLines : List Char → List (List Char)
  | [] => [[]]
  | c :: rest =>
    if c = '\n' then [] :: splitLines rest
    else
      match splitLines rest with
      | [] => [[c]]
      | l :: ls => (c :: l) :: ls

/-- `line.startsWith('data: ')`. -/
def startsWithData : List Char → Bool
  | 'd' :: 'a' :: 't' :: 'a' :: ':' :: ' ' :: _ => true
  | _ => false

/-- The OpenAI/Grok loop body for one line: lines without the `data: ` prefix
are skipped (the source filters them before the loop); the upstream's own
`[DONE]` marker is skipped; otherwise parse the payload and emit a text event
exactly when `choices[0].delta.content` is present and truthy.  A parse
failure yields no event (the source swallows the exception). -/
def openaiLineEvent (provider : String) (line : List Char) : Option Event :=
  if startsWithData line then
    let data := line.drop 6
    if data = "[DONE]".toList then none
    else
      match jsonParseChars data with
      | some j =>
        match choicesDeltaContent j with
        | some c => if jsTruthy c then some (.text c provider) else none
        | none => none
      | none => none
  else none

/-- Events of one decoded OpenAI/Grok chunk (lines 313-329). -/
def openaiChunkEvents (provider : String) (chunk : String) : List Event :=
  (splitLines chunk.toList).filterMap (openaiLineEvent provider)

/-- The OpenAI/Grok `ReadableStream` body (lines 306-338): each chunk is
processed independently line by line; on clean upstream end `[DONE]` is appended; a
mid-stream throw aborts the stream via `controller.error` with no `[DONE]`. -/
def openaiNormalize (provider : String) (u : ByteUpstream) : List Event :=
  (u.chunks.map (openaiChunkEvents provider)).flatten ++
    (if u.err.isSome then [] else [.done])

/-- Index of the first `[` in the buffer, if any. -/
def firstOpenIdx (cs : List Char) : Option Nat :=
  cs.findIdx? (fun c => c = '[')

/-- Index of the last `]` in the buffer, if any. -/
def lastCloseIdx (cs : List Char) : Option Nat :=
  (cs.reverse.findIdx? (fun c => c = ']')).map (fun k => cs.length - 1 - k)

/-- The span matched by `buffer.match(/\[[\s\S]*\]/)`: from the first `[` to
the last `]`, provided the latter lies strictly after the former. -/
def geminiMatch (cs : List Char) : Option (Nat × Nat) :=
  match firstOpenIdx cs, lastCloseIdx cs with
  | some i, some j => if i < j then some (i, j) else none
  | _, _ => none

/-- One Gemini array item's text event, when
`item.candidates?.[0]?.content?.parts?.[0]?.text` is present and truthy. -/
def geminiItemEvent (item : Json) : Option Event :=
  match candidatesText item with
  | some t => if jsTruthy t then some (.text t "gemini") else none
  | none => none

/-- One iteration of the Gemini read loop (lines 360-383): append the chunk
to the buffer, greedily match a bracketed span, and if it parses as a JSON
array, emit its items' text events and drop everything through the span;
otherwise keep accumulating. -/
def geminiStep (buffer chunk : List Char) : List Event × List Char :=
  let b := buffer ++ chunk
  match geminiMatch b with
  | none => ([], b)
  | some (i, j) =>
    let matched := (b.drop i).take (j + 1 - i)
    match jsonParseChars matched with
    | some (.arr items) => (items.filterMap geminiItemEvent, b.drop (j + 1))
    | _ => ([], b)

/-- Run the Gemini loop over the remaining chunks from a given buffer. -/
def geminiRun : List Char → List String → List Event
  | _, [] => []
  | buffer, c :: rest =>
    let p := geminiStep buffer c.toList
    p.1 ++ geminiRun p.2 rest

/-- The Gemini `ReadableStream` body (lines 355-391): run the buffer loop;
on clean upstream end `[DONE]` is appended regardless of leftover buffer; a
mid-stream throw aborts the stream via `controller.error` with no `[DONE]`. -/
def geminiNormalize (u : ByteUpstream) : List Event :=
  geminiRun [] u.chunks ++ (if u.err.isSome then [] else [.done])

/-! ### The orchestrator (`handler`), up to the streaming response -/

/-- The handler's outcome: an immediate JSON response, or a streaming
response for the resolved provider. -/
inductive HandlerResult where
  | json (status : Nat) (error : String)
  | stream (provider : String)
deriving DecidableEq

/-- `handler` up to the choice of response (lines 199-414): method check,
provider resolution, credential check — where an unknown provider's missing
`keyMap` entry makes JS read `process.env[undefined]`, i.e. the variable
literally named `"undefined"` — then the per-provider streaming branches,
and only past all of them the 400 `Unknown provider` response. -/
def handler (method : String) (body : ChatRequest) (env : String → Bool) :
    HandlerResult :=
  if method ≠ "POST" then .json 405 "Method not allowed"
  else
    let provider := selectProvider (body.provider.getD "auto") env
    let keyTruthy :=
      match keyMap provider with
      | some k => env k
      | none => env "undefined"
    if keyTruthy = false then .json 500 (provider ++ " API key not configured")
    else if provider = "claude" then .stream "claude"
    else if provider = "openai" ∨ provider = "grok" then .stream provider
    else if provider = "gemini" then .stream "gemini"
    else .json 400 "Unknown provider"

/-! ### Statement-support definitions -/

/-- The fixed `auto` priority order of the selector. -/
def autoPriority : List String := ["claude", "openai", "gemini", "grok"]

/-- The credential environment variable of each known provider. -/
def credEnvKey (p : String) : String :=
  if p = "claude" then "ANTHROPIC_API_KEY"
  else if p = "openai" then "OPENAI_API_KEY"
  else if p = "gemini" then "GOOGLE_API_KEY"
  else "XAI_API_KEY"

/-- The `auto` resolution as the spec words it: the first provider of the
fixed priority list whose credential is present, defaulting to `claude`.
(Stated from the spec, to be compared with `selectProvider`.) -/
def selectProviderSpec (env : String → Bool) : String :=
  (autoPriority.find? (fun p => env (credEnvKey p))).getD "claude"

/-- The text a Claude payload message carries (a plain message's content, or
the concatenated text of its structured blocks). -/
def claudeMessageText (m : ClaudeMessage) : String :=
  match m.content with
  | .plain s => s
  | .blocks bs => String.join (bs.map (fun b => b.text))

/-- Whether a Claude payload message carries a cache annotation. -/
def isCacheAnnotated (m : ClaudeMessage) : Bool :=
  match m.content with
  | .blocks bs => bs.any (fun b => b.cacheControl = some "ephemeral")
  | .plain _ => false

/-- Whether an event is the terminal `[DONE]` marker. -/
def isDoneEv : Event → Bool
  | .done => true
  | _ => false

/-- Whether an event is a `text` event. -/
def isTextEv : Event → Bool
  | .text _ _ => true
  | _ => false

/-- A fixed six-decimal-place string: some prefix, a dot, then exactly six
decimal digits. -/
def SixDecimalStr (s : String) : Prop :=
  ∃ a b, s = a ++ "." ++ b ∧ b.length = 6 ∧ b.toList.all (fun c => c.isDigit)

/-- Characters that could extend a JSON number to the right (the one
construct the grammar does not close with a delimiter). -/
def numExtCh (c : Char) : Bool :=
  isDigitCh c ∨ c = '.' ∨ c = 'e' ∨ c = 'E'

/-- A continuation whose first character cannot extend a preceding JSON
number; appending such a continuation cannot change a completed parse. -/
def goodCont (t : List Char) : Prop :=
  ∀ c, t.head? = some c → numExtCh c = false

/-! ## Theorems -/

/-- C4: the selector returns a non-`auto` token unchanged without consulting
credentials, and resolves `auto` to the first provider of the fixed priority
list `[claude, openai, gemini, grok]` whose credential is present,
defaulting to `claude` when none is. -/
theorem C4_selector_policy (requested : String) (env : String → Bool) :
    (requested ≠ "auto" → selectProvider requested env = requested) ∧
    selectProvider "auto" env = selectProviderSpec env := by
  constructor
  · intro h
    simp [selectProvider, h]
  · simp only [selectProvider, selectProviderSpec, autoPriority, credEnvKey, if_pos rfl]
    cases h1 : env "ANTHROPIC_API_KEY" <;> cases h2 : env "OPENAI_API_KEY" <;>
      cases h3 : env "GOOGLE_API_KEY" <;> cases h4 : env "XAI_API_KEY" <;>
      simp [List.find?, h1, h2, h3, h4]

/-- C4 witness: instances of both selector clauses at concrete inputs. -/
theorem C4_selector_policy_witness :
    selectProvider "gemini" (fun _ => true) = "gemini" ∧
    selectProvider "auto" (fun _ => false) = selectProviderSpec (fun _ => false) :=
  ⟨(C4_selector_policy "gemini" (fun _ => true)).1 (by decide),
   (C4_selector_policy "auto" (fun _ => false)).2⟩

/-- C2 counterexample: the unknown provider token `foo` (with no environment
variable named `undefined` set) is answered with status 500 and
`foo API key not configured`, not with the claimed 400 `Unknown provider`:
the credential check runs first and `keyMap['foo']` is `undefined`. -/
theorem C2_unknown_provider_counterexample :
    handler "POST" ⟨[], none, some "foo", none⟩ (fun _ => false)
        = .json 500 "foo API key not configured" ∧
    handler "POST" ⟨[], none, some "foo", none⟩ (fun _ => false)
        ≠ .json 400 "Unknown provider" := by
  have h : handler "POST" ⟨[], none, some "foo", none⟩ (fun _ => false)
      = .json 500 "foo API key not configured" := by decide
  exact ⟨h, by rw [h]; simp⟩

/-- C2 (amended): an unknown (non-`auto`) provider token reaches the
credential check first, whose `keyMap` lookup is `undefined`, so JS tests
`process.env[undefined]`: when no variable literally named `undefined` is
set, the answer is status 500 with `<token> API key not configured` and the
400 branch is unreachable; when such a variable is set, the answer is the
claimed 400 `Unknown provider`.  A known resolved provider whose credential
variable is absent is answered 500 `<provider> API key not configured`. -/
theorem C2_amended (env : String → Bool) (msgs : List Message)
    (sys model : Option String) (tok p : String) :
    (tok ∉ ["auto", "claude", "openai", "gemini", "grok"] → env "undefined" = false →
      handler "POST" ⟨msgs, sys, some tok, model⟩ env
        = .json 500 (tok ++ " API key not configured")) ∧
    (tok ∉ ["auto", "claude", "openai", "gemini", "grok"] → env "undefined" = true →
      handler "POST" ⟨msgs, sys, some tok, model⟩ env = .json 400 "Unknown provider") ∧
    (p ∈ ["claude", "openai", "gemini", "grok"] → selectProvider tok env = p →
      env (credEnvKey p) = false →
      handler "POST" ⟨msgs, sys, some tok, model⟩ env
        = .json 500 (p ++ " API key not configured")) := by
  refine ⟨?_, ?_, ?_⟩
  · intro hmem hu
    simp only [List.mem_cons, List.not_mem_nil, or_false, not_or] at hmem
    obtain ⟨h1, h2, h3, h4, h5⟩ := hmem
    simp [handler, selectProvider, keyMap, h1, h2, h3, h4, h5, hu]
  · intro hmem hu
    simp only [List.mem_cons, List.not_mem_nil, or_false, not_or] at hmem
    obtain ⟨h1, h2, h3, h4, h5⟩ := hmem
    simp [handler, selectProvider, keyMap, h1, h2, h3, h4, h5, hu]
  · intro hmem hsel hcred
    simp only [List.mem_cons, List.not_mem_nil, or_false] at hmem
    simp only [handler, Option.getD_some, hsel]
    rcases hmem with rfl | rfl | rfl | rfl <;>
      simp_all [keyMap, credEnvKey]

/-- C2 witness: all three amended clauses at concrete inputs. -/
theorem C2_amended_witness :
    handler "POST" ⟨[], none, some "foo", none⟩ (fun _ => false)
        = .json 500 ("foo" ++ " API key not configured") ∧
    handler "POST" ⟨[], none, some "foo", none⟩ (fun k => k == "undefined")
        = .json 400 "Unknown provider" ∧
    handler "POST" ⟨[], none, some "claude", none⟩ (fun _ => false)
        = .json 500 ("claude" ++ " API key not configured") :=
  ⟨(C2_amended (fun _ => false) [] none none "foo" "x").1 (by decide) rfl,
   (C2_amended (fun k => k == "undefined") [] none none "foo" "x").2.1
     (by decide) (by decide),
   (C2_amended (fun _ => false) [] none none "claude" "claude").2.2
     (by decide) (by decide) rfl⟩

/-- C3 counterexample: every translator, invoked with the empty message list
and no model, still constructs a complete upstream request — there is no
`ValidationError` anywhere in the source and nothing stops the upstream
call, refuting fail-fast validation. -/
theorem C3_no_validation_counterexample :
    handleClaude [] none none
        = ⟨"claude-sonnet-4-5-20250514", 8192, [], none⟩ ∧
    handleOpenAI [] none none = ⟨"gpt-4o", [], 8192, true⟩ ∧
    handleGrok [] none none = ⟨"grok-beta", [], 8192, true⟩ ∧
    handleGemini [] none none = ⟨"gemini-1.5-pro", [], none, 8192⟩ :=
  ⟨rfl, rfl, rfl, rfl⟩

/-- `claudeFormatMessages` as a function of the index (helper). -/
theorem claudeFormatMessages_eq_ofFn (msgs : List Message) :
    claudeFormatMessages msgs = List.ofFn (fun i : Fin msgs.length =>
      if (i : ℕ) = msgs.length - 2 ∧ msgs.length > 1 then
        ⟨(msgs.get i).role,
          .blocks [⟨"text", (msgs.get i).content, some "ephemeral"⟩]⟩
      else ⟨(msgs.get i).role, .plain (msgs.get i).content⟩) :=
  List.mapIdx_eq_ofFn msgs _

/-- The Claude payload preserves the message texts in order (helper). -/
theorem claudeFormat_texts (msgs : List Message) :
    (claudeFormatMessages msgs).map claudeMessageText
      = msgs.map (fun m => m.content) := by
  rw [claudeFormatMessages_eq_ofFn, List.map_ofFn]
  conv_rhs => rw [← List.ofFn_get msgs, List.map_ofFn]
  congr 1
  funext i
  by_cases hc : (i : ℕ) = msgs.length - 2 ∧ msgs.length > 1 <;>
    simp [hc, Function.comp, claudeMessageText, String.join]

/-- C8: every translator's payload carries each input message's text
unmodified and in the original order — the Claude payload's message texts
are exactly the input texts, the OpenAI and Grok payloads extend the input
list only by an optional leading system message (the input is a suffix, in
order), and the Gemini `contents` parts are exactly the input texts.  The
translators are modelled as pure functions building fresh payloads, as the
source builds them with `map`/spread without touching the caller's array. -/
theorem C8_translators_preserve_content (msgs : List Message)
    (sys model : Option String) :
    ((handleClaude msgs sys model).messages).map claudeMessageText
        = msgs.map (fun m => m.content) ∧
    List.IsSuffix msgs (handleOpenAI msgs sys model).messages ∧
    List.IsSuffix msgs (handleGrok msgs sys model).messages ∧
    ((handleGemini msgs sys model).contents).map (fun c => c.parts)
        = msgs.map (fun m => [m.content]) := by
  refine ⟨claudeFormat_texts msgs, ?_, ?_, ?_⟩
  · simp only [handleOpenAI]
    split
    · exact ⟨[⟨"system", sys.getD ""⟩], rfl⟩
    · exact List.suffix_refl msgs
  · simp only [handleGrok]
    split
    · exact ⟨[⟨"system", sys.getD ""⟩], rfl⟩
    · exact List.suffix_refl msgs
  · simp [handleGemini]

/-- C9: system-prompt injection per provider — Claude receives the prompt
as one structured text block annotated `cache_control: ephemeral` and the
second-to-last conversation message is cache-annotated exactly when there is
more than one message; OpenAI and Grok receive the prompt as a synthetic
leading `system` message; Gemini receives it as the separate
`systemInstruction` field, with `assistant` translated to `model`. -/
theorem C9_system_prompt_injection (msgs : List Message) (s : String)
    (model : Option String) (hs : s ≠ "") :
    (handleClaude msgs (some s) model).system
        = some [⟨"text", s, some "ephemeral"⟩] ∧
    (∀ i (h : i < (claudeFormatMessages msgs).length),
        isCacheAnnotated ((claudeFormatMessages msgs).get ⟨i, h⟩) = true
          ↔ (i = msgs.length - 2 ∧ msgs.length > 1)) ∧
    (handleOpenAI msgs (some s) model).messages = ⟨"system", s⟩ :: msgs ∧
    (handleGrok msgs (some s) model).messages = ⟨"system", s⟩ :: msgs ∧
    (handleGemini msgs (some s) model).systemInstruction = some [s] ∧
    (handleGemini msgs (some s) model).contents = msgs.map (fun m =>
        ⟨if m.role = "assistant" then "model" else "user", [m.content]⟩) := by
  refine ⟨?_, ?_, ?_, ?_, ?_, rfl⟩
  · simp [handleClaude, jsStrTruthy, hs]
  · intro i h
    have hi : i < msgs.length := by
      simpa [claudeFormatMessages] using h
    rw [show (claudeFormatMessages msgs).get ⟨i, h⟩
        = if i = msgs.length - 2 ∧ msgs.length > 1 then
            (⟨(msgs.get ⟨i, hi⟩).role, .blocks [⟨"text", (msgs.get ⟨i, hi⟩).content,
              some "ephemeral"⟩]⟩ : ClaudeMessage)
          else ⟨(msgs.get ⟨i, hi⟩).role, .plain (msgs.get ⟨i, hi⟩).content⟩
      from List.get_mapIdx msgs _ i hi h]
    by_cases hc : i = msgs.length - 2 ∧ msgs.length > 1 <;>
      simp [hc, isCacheAnnotated]
  · simp [handleOpenAI, jsStrTruthy, hs]
  · simp [handleGrok, jsStrTruthy, hs]
  · simp [handleGemini, jsStrTruthy, hs]

/-- C9 witness: the amended conjuncts at a two-message conversation. -/
theorem C9_system_prompt_injection_witness :
    (handleClaude [⟨"user", "a"⟩, ⟨"assistant", "b"⟩] (some "sys") none).system
        = some [⟨"text", "sys", some "ephemeral"⟩] ∧
    (isCacheAnnotated ((claudeFormatMessages
        [⟨"user", "a"⟩, ⟨"assistant", "b"⟩]).get ⟨0, by decide⟩) = true
      ↔ (0 = ([⟨"user", "a"⟩, ⟨"assistant", "b"⟩] : List Message).length - 2 ∧
          ([⟨"user", "a"⟩, ⟨"assistant", "b"⟩] : List Message).length > 1)) ∧
    (handleOpenAI [⟨"user", "a"⟩] (some "sys") none).messages
        = [⟨"system", "sys"⟩, ⟨"user", "a"⟩] :=
  ⟨(C9_system_prompt_injection [⟨"user", "a"⟩, ⟨"assistant", "b"⟩] "sys" none
      (by decide)).1,
   (C9_system_prompt_injection [⟨"user", "a"⟩, ⟨"assistant", "b"⟩] "sys" none
      (by decide)).2.1 0 (by decide),
   (C9_system_prompt_injection [⟨"user", "a"⟩] "sys" none (by decide)).2.2.1⟩

/-! Append-stability of the JSON parser: a completed parse is unchanged by
appending a continuation that cannot extend a number (e.g. one starting with
`[`).  This is the engine behind the greedy-bracket-match analysis of the
Gemini normalizer. -/

/-- Unpacking `goodCont` at a cons continuation (helper). -/
theorem goodCont_not_ext {t : List Char} {c : Char} (hg : goodCont t)
    (h : t.head? = some c) :
    isDigitCh c = false ∧ c ≠ '.' ∧ c ≠ 'e' ∧ c ≠ 'E' := by
  have hc := hg c h
  simp only [numExtCh, decide_eq_false_iff_not, not_or] at hc
  obtain ⟨h1, h2, h3, h4⟩ := hc
  exact ⟨by simpa using h1, h2, h3, h4⟩

/-- `skipWs` append-stability when something non-whitespace remains
(helper). -/
theorem skipWs_cons_append {s r : List Char} {c : Char}
    (h : skipWs s = c :: r) (t : List Char) :
    skipWs (s ++ t) = c :: (r ++ t) := by
  induction s with
  | nil => exact absurd h (by simp [skipWs])
  | cons a as ih =>
    rw [List.cons_append, skipWs]
    rw [skipWs] at h
    by_cases hw : isWsCh a
    · rw [if_pos hw] at h ⊢
      exact ih h
    · rw [if_neg hw] at h ⊢
      cases h
      rfl

/-- `skipWs` append through an all-whitespace prefix (helper). -/
theorem skipWs_nil_append {s : List Char} (h : skipWs s = [])
    (t : List Char) : skipWs (s ++ t) = skipWs t := by
  induction s with
  | nil => rfl
  | cons a as ih =>
    rw [skipWs] at h
    by_cases hw : isWsCh a
    · rw [List.cons_append, skipWs, if_pos hw]
      rw [if_pos hw] at h
      exact ih h
    · rw [if_neg hw] at h
      exact absurd h (by simp)

/-- `takeDigits` append-stability under a non-extending continuation
(helper). -/
theorem takeDigits_append {s : List Char} {t : List Char} {ds r : List Char}
    (hg : goodCont t) (h : takeDigits s = (ds, r)) :
    takeDigits (s ++ t) = (ds, r ++ t) := by
  induction s generalizing ds r with
  | nil =>
    rw [takeDigits] at h
    cases h
    cases ht : t with
    | nil => rfl
    | cons c cs =>
      have hd := (goodCont_not_ext hg (by rw [ht]; rfl)).1
      rw [List.nil_append, takeDigits, if_neg (by simp [hd])]
  | cons a as ih =>
    rw [takeDigits] at h
    by_cases hd : isDigitCh a
    · rw [if_pos hd] at h
      dsimp only at h
      obtain ⟨ds', r', hp⟩ : ∃ ds' r', takeDigits as = (ds', r') := ⟨_, _, rfl⟩
      rw [hp] at h
      cases h
      rw [List.cons_append, takeDigits, if_pos hd]
      dsimp only
      rw [ih hp]
    · rw [if_neg hd] at h
      cases h
      rw [List.cons_append, takeDigits, if_neg hd]

/-- Evaluation of the escape arm for a valid one-character escape (helper). -/
theorem parseStringBody_esc_eval (acc : List Char) (e ch : Char) (r : List Char)
    (hch : escCh e = some ch) :
    parseStringBody acc ('\\' :: e :: r) = parseStringBody (ch :: acc) r := by
  have heu : e ≠ 'u' := by
    intro hh
    rw [hh] at hch
    exact Option.noConfusion hch
  rw [parseStringBody.eq_def]
  split
  · rename_i heq
    simp at heq
  · rename_i heq
    simp at heq
    exact absurd heq.1 heu
  · rename_i heq
    simp at heq
    obtain ⟨rfl, rfl⟩ := heq
    rw [hch]
  · rename_i hno heq
    simp at heq
    exact ((hno e r heq.1.symm heq.2.symm)).elim
  · rename_i heq
    simp at heq

/-- Evaluation of the ordinary-character arm (helper). -/
theorem parseStringBody_plain_eval (acc : List Char) (c : Char) (r : List Char)
    (h1 : c ≠ '"') (h2 : c ≠ '\\') (h3 : ¬ c.toNat < 32) :
    parseStringBody acc (c :: r) = parseStringBody (c :: acc) r := by
  rw [parseStringBody.eq_def]
  split
  · rename_i heq
    simp at heq
    exact absurd heq.1 h1
  · rename_i heq
    simp at heq
    exact absurd heq.1 h2
  · rename_i heq
    simp at heq
    exact absurd heq.1 h2
  · rename_i heq
    simp at heq
    obtain ⟨rfl, rfl⟩ := heq
    rw [if_neg h3]
  · rename_i heq
    simp at heq
/-- `parseStringBody` append-stability: a completed string parse is
unchanged by appending anything (helper). -/
theorem parseStringBody_append :
    ∀ (acc s : List Char) (str : String) (r t : List Char),
      parseStringBody acc s = some (str, r) →
      parseStringBody acc (s ++ t) = some (str, r ++ t) := by
  intro acc s
  induction acc, s using parseStringBody.induct with
  | case1 acc r0 =>
    intro str r t h
    simp only [parseStringBody] at h
    cases h
    simp only [List.cons_append, parseStringBody]
    rfl
  | case2 acc a b c d r0 va vb vc vd hd hc hb ha ih =>
    intro str r t h
    simp only [parseStringBody, ha, hb, hc, hd] at h
    simp only [List.cons_append, parseStringBody, ha, hb, hc, hd]
    exact ih _ _ _ h
  | case3 acc a b c d r0 himp =>
    intro str r t h
    simp only [parseStringBody] at h
    exact Option.noConfusion h
  | case4 acc e r0 hne ch hch ih =>
    intro str r t h
    simp only [parseStringBody, hch] at h
    rw [List.cons_append, List.cons_append, parseStringBody_esc_eval _ _ _ _ hch]
    exact ih _ _ _ h
  | case5 acc e r0 hne hch =>
    intro str r t h
    simp only [parseStringBody, hch] at h
    exact Option.noConfusion h
  | case6 acc c r0 h1 h2 h3 hc =>
    intro str r t h
    simp only [parseStringBody, if_pos hc] at h
    exact Option.noConfusion h
  | case7 acc c r0 h1 h2 h3 hc ih =>
    intro str r t h
    simp only [parseStringBody, if_neg hc] at h
    have hq : c ≠ '"' := fun hh => h1 hh
    have hb : c ≠ '\\' := by
      intro hh
      cases r0 with
      | nil =>
        rw [hh] at h
        simp only [parseStringBody] at h
        exact Option.noConfusion h
      | cons e r1 => exact h3 e r1 hh rfl
    rw [List.cons_append, parseStringBody_plain_eval _ _ _ hq hb hc]
    exact ih _ _ _ h
  | case8 acc =>
    intro str r t h
    exact Option.noConfusion h

/-- `numExpTail` append-stability (helper). -/
theorem numExpTail_append {s t : List Char} {e : Int} {r : List Char}
    (hg : goodCont t) (h : numExpTail s = some (e, r)) :
    numExpTail (s ++ t) = some (e, r ++ t) := by
  cases s with
  | nil =>
    simp only [numExpTail, takeDigits] at h
    exact Option.noConfusion h
  | cons c cs =>
    rw [List.cons_append]
    simp only [numExpTail] at h ⊢
    by_cases hp : c = '+'
    · rw [if_pos hp] at h ⊢
      dsimp only at h ⊢
      obtain ⟨eds, r', htd⟩ : ∃ eds r', takeDigits cs = (eds, r') := ⟨_, _, rfl⟩
      rw [htd] at h
      rw [takeDigits_append hg htd]
      cases eds with
      | nil => exact Option.noConfusion h
      | cons d es =>
        dsimp only at h ⊢
        cases h
        rfl
    · rw [if_neg hp] at h ⊢
      by_cases hm : c = '-'
      · rw [if_pos hm] at h ⊢
        dsimp only at h ⊢
        obtain ⟨eds, r', htd⟩ : ∃ eds r', takeDigits cs = (eds, r') := ⟨_, _, rfl⟩
        rw [htd] at h
        rw [takeDigits_append hg htd]
        cases eds with
        | nil => exact Option.noConfusion h
        | cons d es =>
          dsimp only at h ⊢
          cases h
          rfl
      · rw [if_neg hm] at h ⊢
        dsimp only at h ⊢
        obtain ⟨eds, r', htd⟩ : ∃ eds r', takeDigits (c :: cs) = (eds, r') := ⟨_, _, rfl⟩
        rw [htd] at h
        rw [show (c :: (cs ++ t)) = (c :: cs) ++ t from rfl,
          takeDigits_append hg htd]
        cases eds with
        | nil => exact Option.noConfusion h
        | cons d es =>
          dsimp only at h ⊢
          cases h
          rfl

/-- `numFrac` append-stability (helper). -/
theorem numFrac_append {s t : List Char} {fds r3 : List Char}
    (hg : goodCont t) (h : numFrac s = some (fds, r3)) :
    numFrac (s ++ t) = some (fds, r3 ++ t) := by
  cases s with
  | nil =>
    simp only [numFrac] at h
    cases h
    cases ht : t with
    | nil => rfl
    | cons c ts =>
      obtain ⟨-, hdot, -, -⟩ := goodCont_not_ext hg (by rw [ht]; rfl)
      rw [List.nil_append, numFrac, if_neg hdot]
  | cons c r2 =>
    rw [List.cons_append]
    simp only [numFrac] at h ⊢
    by_cases hdot : c = '.'
    · rw [if_pos hdot] at h ⊢
      obtain ⟨ds, r', htd⟩ : ∃ ds r', takeDigits r2 = (ds, r') := ⟨_, _, rfl⟩
      rw [htd] at h
      rw [takeDigits_append hg htd]
      cases ds with
      | nil => exact Option.noConfusion h
      | cons d es =>
        dsimp only at h ⊢
        cases h
        rfl
    · rw [if_neg hdot] at h ⊢
      cases h
      rfl

/-- `numExpo` append-stability (helper). -/
theorem numExpo_append {s t : List Char} {e : Int} {r5 : List Char}
    (hg : goodCont t) (h : numExpo s = some (e, r5)) :
    numExpo (s ++ t) = some (e, r5 ++ t) := by
  cases s with
  | nil =>
    simp only [numExpo] at h
    cases h
    cases ht : t with
    | nil => rfl
    | cons c ts =>
      obtain ⟨-, -, he, hE⟩ := goodCont_not_ext hg (by rw [ht]; rfl)
      rw [List.nil_append, numExpo, if_neg (by simp [he, hE])]
  | cons c r4 =>
    rw [List.cons_append]
    simp only [numExpo] at h ⊢
    by_cases hee : c = 'e' ∨ c = 'E'
    · rw [if_pos hee] at h ⊢
      exact numExpTail_append hg h
    · rw [if_neg hee] at h ⊢
      cases h
      rfl

/-- `numTail` append-stability (helper). -/
theorem numTail_append {neg : Bool} {s t : List Char} {j : Json} {r : List Char}
    (hg : goodCont t) (h : numTail neg s = some (j, r)) :
    numTail neg (s ++ t) = some (j, r ++ t) := by
  simp only [numTail] at h ⊢
  obtain ⟨ds0, r1, htd⟩ : ∃ ds0 r1, takeDigits s = (ds0, r1) := ⟨_, _, rfl⟩
  rw [htd] at h
  rw [takeDigits_append hg htd]
  cases ds0 with
  | nil => exact Option.noConfusion h
  | cons d ds =>
    dsimp only at h ⊢
    split at h
    · exact Option.noConfusion h
    · rename_i hlz
      rw [if_neg hlz]
      obtain ⟨fds, r3, hfr⟩ : ∃ fds r3, numFrac r1 = some (fds, r3) := by
        match hf : numFrac r1 with
        | none => rw [hf] at h; exact Option.noConfusion h
        | some (fds, r3) => exact ⟨fds, r3, rfl⟩
      rw [hfr] at h
      rw [numFrac_append hg hfr]
      dsimp only at h ⊢
      obtain ⟨e0, r5, hex⟩ : ∃ e0 r5, numExpo r3 = some (e0, r5) := by
        match hx : numExpo r3 with
        | none => rw [hx] at h; exact Option.noConfusion h
        | some (e0, r5) => exact ⟨e0, r5, rfl⟩
      rw [hex] at h
      rw [numExpo_append hg hex]
      dsimp only at h ⊢
      cases h
      rfl

/-- `parseNumber` append-stability under a non-extending continuation
(helper). -/
theorem parseNumber_append {s t : List Char} {j : Json} {r : List Char}
    (hg : goodCont t) (h : parseNumber s = some (j, r)) :
    parseNumber (s ++ t) = some (j, r ++ t) := by
  cases s with
  | nil => exact Option.noConfusion h
  | cons c cs =>
    rw [List.cons_append]
    simp only [parseNumber] at h ⊢
    by_cases hm : c = '-'
    · rw [if_pos hm] at h ⊢
      exact numTail_append hg h
    · rw [if_neg hm] at h ⊢
      exact numTail_append hg h

/-- `parseVal` fails on empty input (helper). -/
theorem parseVal_nil : ∀ f, parseVal f [] = none
  | 0 => rfl
  | _ + 1 => rfl

/-- `parseElems` fails on empty input (helper). -/
theorem parseElems_nil : ∀ f, parseElems f [] = none
  | 0 => rfl
  | f + 1 => by rw [parseElems, parseVal_nil]

/-- `parseMembers` fails on empty input (helper). -/
theorem parseMembers_nil : ∀ f, parseMembers f [] = none
  | 0 => rfl
  | _ + 1 => rfl

/-! The combined append-stability and fuel-monotonicity of the mutual
parser: a parse completed at fuel `f` still yields the same value at any
larger fuel and with any non-extending continuation appended, leaving that
continuation unconsumed. -/
set_option maxHeartbeats 1000000 in
mutual
/-- Append-stability and fuel-monotonicity of `parseVal` (helper). -/
theorem parseVal_append_mono :
    ∀ (f f' : Nat) (s : List Char) (v : Json) (r t : List Char),
      f ≤ f' → goodCont t → parseVal f s = some (v, r) →
      parseVal f' (s ++ t) = some (v, r ++ t)
  | 0, _, _, _, _, _, _, _, h => by rw [parseVal] at h; exact Option.noConfusion h
  | f + 1, 0, _, _, _, _, hle, _, _ => absurd hle (by omega)
  | f + 1, f' + 1, s, v, r, t, hle, hg, h => by
    have hle' : f ≤ f' := by omega
    rw [parseVal] at h
    rw [parseVal]
    split at h
    case _ r0 heq =>
      cases h
      rw [skipWs_cons_append heq]
      simp only [List.cons_append]
    case _ r0 heq =>
      cases h
      rw [skipWs_cons_append heq]
      simp only [List.cons_append]
    case _ r0 heq =>
      cases h
      rw [skipWs_cons_append heq]
      simp only [List.cons_append]
    -- string arm
    case _ r0 heq =>
      rw [skipWs_cons_append heq]
      simp only [List.cons_append]
      obtain ⟨s1, r1, hp⟩ : ∃ s1 r1, parseStringBody [] r0 = some (s1, r1) := by
        match hp : parseStringBody [] r0 with
        | none => rw [hp] at h; exact Option.noConfusion h
        | some (s1, r1) => exact ⟨s1, r1, rfl⟩
      rw [hp] at h
      cases h
      rw [parseStringBody_append [] r0 s1 r t hp]
    -- array arm
    case _ r0 heq =>
      rw [skipWs_cons_append heq]
      simp only [List.cons_append]
      split at h
      case _ r1 heq2 =>
        cases h
        rw [skipWs_cons_append heq2]
        simp only [List.cons_append]
      case _ hno =>
        obtain ⟨es, r1, hp⟩ : ∃ es r1, parseElems f (skipWs r0) = some (es, r1) := by
          match hp : parseElems f (skipWs r0) with
          | none => rw [hp] at h; exact Option.noConfusion h
          | some (es, r1) => exact ⟨es, r1, rfl⟩
        rw [hp] at h
        cases h
        obtain ⟨c2, r2, hsk⟩ : ∃ c2 r2, skipWs r0 = c2 :: r2 := by
          match hsk : skipWs r0 with
          | [] => rw [hsk, parseElems_nil] at hp; exact Option.noConfusion hp
          | c2 :: r2 => exact ⟨c2, r2, rfl⟩
        have hc2 : c2 ≠ ']' := by
          intro hh
          rw [hh] at hsk
          exact hno _ hsk
        rw [skipWs_cons_append hsk]
        split
        case _ r3 heq3 =>
          exact absurd (List.head_eq_of_cons_eq heq3) hc2
        case _ =>
          rw [show (c2 :: (r2 ++ t)) = (c2 :: r2) ++ t from rfl, ← hsk]
          rw [parseElems_append_mono f f' (skipWs r0) es r t hle' hg hp]
    -- object arm
    case _ r0 heq =>
      rw [skipWs_cons_append heq]
      simp only [List.cons_append]
      split at h
      case _ r1 heq2 =>
        cases h
        rw [skipWs_cons_append heq2]
        simp only [List.cons_append]
      case _ hno =>
        obtain ⟨ms, r1, hp⟩ : ∃ ms r1, parseMembers f (skipWs r0) = some (ms, r1) := by
          match hp : parseMembers f (skipWs r0) with
          | none => rw [hp] at h; exact Option.noConfusion h
          | some (ms, r1) => exact ⟨ms, r1, rfl⟩
        rw [hp] at h
        cases h
        obtain ⟨c2, r2, hsk⟩ : ∃ c2 r2, skipWs r0 = c2 :: r2 := by
          match hsk : skipWs r0 with
          | [] => rw [hsk, parseMembers_nil] at hp; exact Option.noConfusion hp
          | c2 :: r2 => exact ⟨c2, r2, rfl⟩
        have hc2 : c2 ≠ '\x7d' := by
          intro hh
          rw [hh] at hsk
          exact hno _ hsk
        rw [skipWs_cons_append hsk]
        split
        case _ r3 heq3 =>
          exact absurd (List.head_eq_of_cons_eq heq3) hc2
        case _ =>
          rw [show (c2 :: (r2 ++ t)) = (c2 :: r2) ++ t from rfl, ← hsk]
          rw [parseMembers_append_mono f f' (skipWs r0) ms r t hle' hg hp]
    -- number arm
    case _ =>
      rename_i c r0 hn1 hn2 hn3 hq hbr hob heq
      split_ifs at h with hcond
      have hc : c ≠ 'n' ∧ c ≠ 't' ∧ c ≠ 'f' ∧ c ≠ '"' ∧ c ≠ '[' ∧ c ≠ '\x7b' := by
        rcases hcond with rfl | hd
        · exact ⟨by decide, by decide, by decide, by decide, by decide, by decide⟩
        · refine ⟨?_, ?_, ?_, ?_, ?_, ?_⟩ <;>
            (intro hh; subst hh; revert hd; decide)
      rw [skipWs_cons_append heq]
      split
      case _ r1 heq2 =>
        exact absurd (List.head_eq_of_cons_eq heq2) hc.1
      case _ r1 heq2 =>
        exact absurd (List.head_eq_of_cons_eq heq2) hc.2.1
      case _ r1 heq2 =>
        exact absurd (List.head_eq_of_cons_eq heq2) hc.2.2.1
      case _ r1 heq2 =>
        exact absurd (List.head_eq_of_cons_eq heq2) hc.2.2.2.1
      case _ r1 heq2 =>
        exact absurd (List.head_eq_of_cons_eq heq2) hc.2.2.2.2.1
      case _ r1 heq2 =>
        exact absurd (List.head_eq_of_cons_eq heq2) hc.2.2.2.2.2
      case _ c2 r2 hm1 hm2 hm3 hm4 hm5 hm6 heq2 =>
        have hcc : c2 = c := (List.head_eq_of_cons_eq heq2).symm
        have hrr : r2 = r0 ++ t := (List.tail_eq_of_cons_eq heq2).symm
        subst hcc
        subst hrr
        rw [if_pos hcond]
        have := parseNumber_append hg h
        rw [List.cons_append] at this
        exact this
      case _ heq2 =>
        exact absurd heq2 (by simp)
    -- nil arm
    case _ heq =>
      exact Option.noConfusion h

/-- Append-stability and fuel-monotonicity of `parseElems` (helper). -/
theorem parseElems_append_mono :
    ∀ (f f' : Nat) (s : List Char) (es : List Json) (r t : List Char),
      f ≤ f' → goodCont t → parseElems f s = some (es, r) →
      parseElems f' (s ++ t) = some (es, r ++ t)
  | 0, _, _, _, _, _, _, _, h => by rw [parseElems] at h; exact Option.noConfusion h
  | f + 1, 0, _, _, _, _, hle, _, _ => absurd hle (by omega)
  | f + 1, f' + 1, s, es, r, t, hle, hg, h => by
    have hle' : f ≤ f' := by omega
    rw [parseElems] at h
    rw [parseElems]
    obtain ⟨v0, r0, hp⟩ : ∃ v0 r0, parseVal f s = some (v0, r0) := by
      match hp : parseVal f s with
      | none => rw [hp] at h; exact Option.noConfusion h
      | some (v0, r0) => exact ⟨v0, r0, rfl⟩
    rw [hp] at h
    dsimp only at h
    split at h
    case _ r1 heq =>
      obtain ⟨vs, r2, hq⟩ : ∃ vs r2, parseElems f r1 = some (vs, r2) := by
        match hq : parseElems f r1 with
        | none => rw [hq] at h; exact Option.noConfusion h
        | some (vs, r2) => exact ⟨vs, r2, rfl⟩
      rw [hq] at h
      cases h
      simp only [parseVal_append_mono f f' s v0 r0 t hle' hg hp,
        skipWs_cons_append heq,
        parseElems_append_mono f f' r1 vs r t hle' hg hq]
    case _ r1 heq =>
      cases h
      simp only [parseVal_append_mono f f' s v0 r0 t hle' hg hp,
        skipWs_cons_append heq]
    case _ =>
      exact Option.noConfusion h

/-- Append-stability and fuel-monotonicity of `parseMembers` (helper). -/
theorem parseMembers_append_mono :
    ∀ (f f' : Nat) (s : List Char) (ms : List (String × Json)) (r t : List Char),
      f ≤ f' → goodCont t → parseMembers f s = some (ms, r) →
      parseMembers f' (s ++ t) = some (ms, r ++ t)
  | 0, _, _, _, _, _, _, _, h => by rw [parseMembers] at h; exact Option.noConfusion h
  | f + 1, 0, _, _, _, _, hle, _, _ => absurd hle (by omega)
  | f + 1, f' + 1, s, ms, r, t, hle, hg, h => by
    have hle' : f ≤ f' := by omega
    rw [parseMembers] at h
    rw [parseMembers]
    split at h
    case _ r0 heq =>
      obtain ⟨k, r1, hsb⟩ : ∃ k r1, parseStringBody [] r0 = some (k, r1) := by
        match hsb : parseStringBody [] r0 with
        | none => rw [hsb] at h; exact Option.noConfusion h
        | some (k, r1) => exact ⟨k, r1, rfl⟩
      rw [hsb] at h
      dsimp only at h
      split at h
      case _ r2 heq2 =>
        obtain ⟨v0, r3, hv⟩ : ∃ v0 r3, parseVal f r2 = some (v0, r3) := by
          match hv : parseVal f r2 with
          | none => rw [hv] at h; exact Option.noConfusion h
          | some (v0, r3) => exact ⟨v0, r3, rfl⟩
        rw [hv] at h
        dsimp only at h
        split at h
        case _ r4 heq3 =>
          obtain ⟨ms2, r5, hm⟩ : ∃ ms2 r5, parseMembers f r4 = some (ms2, r5) := by
            match hm : parseMembers f r4 with
            | none => rw [hm] at h; exact Option.noConfusion h
            | some (ms2, r5) => exact ⟨ms2, r5, rfl⟩
          rw [hm] at h
          cases h
          simp only [skipWs_cons_append heq,
            parseStringBody_append [] r0 k r1 t hsb,
            skipWs_cons_append heq2,
            parseVal_append_mono f f' r2 v0 r3 t hle' hg hv,
            skipWs_cons_append heq3,
            parseMembers_append_mono f f' r4 ms2 r t hle' hg hm]
        case _ r4 heq3 =>
          cases h
          simp only [skipWs_cons_append heq,
            parseStringBody_append [] r0 k r1 t hsb,
            skipWs_cons_append heq2,
            parseVal_append_mono f f' r2 v0 r3 t hle' hg hv,
            skipWs_cons_append heq3]
        case _ =>
          exact Option.noConfusion h
      case _ =>
        exact Option.noConfusion h
    case _ =>
      exact Option.noConfusion h
end

/-- A completed `JSON.parse` never re-parses after more input: appending a
continuation that starts with `[` makes the whole-input parse fail
(helper). -/
theorem jsonParseChars_append_open (s u' : List Char) (v : Json)
    (hv : jsonParseChars s = some v) :
    jsonParseChars (s ++ '[' :: u') = none := by
  rw [jsonParseChars] at hv
  obtain ⟨j0, r, hp⟩ : ∃ j0 r, parseVal (2 * s.length + 2) s = some (j0, r) := by
    match hp : parseVal (2 * s.length + 2) s with
    | none => rw [hp] at hv; exact Option.noConfusion hv
    | some (j0, r) => exact ⟨j0, r, rfl⟩
  rw [hp] at hv
  dsimp only at hv
  have hws : skipWs r = [] := by
    by_contra hne
    rw [if_neg hne] at hv
    exact Option.noConfusion hv
  have hg : goodCont ('[' :: u') := by
    intro c hc
    have hcc : c = '[' := (Option.some.inj hc).symm
    subst hcc
    decide
  have hlen : 2 * s.length + 2 ≤ 2 * (s ++ '[' :: u').length + 2 := by
    simp [List.length_append]
  have hmono := parseVal_append_mono (2 * s.length + 2)
    (2 * (s ++ '[' :: u').length + 2) s j0 r ('[' :: u') hlen hg hp
  rw [jsonParseChars, hmono]
  dsimp only
  rw [skipWs_nil_append hws,
    show skipWs ('[' :: u') = '[' :: u' from by rw [skipWs, if_neg (by decide)]]
  simp

/-- The Gemini buffer is stuck whenever it is a complete JSON array
followed by a tail that starts with `[` and still contains a `]`: the
greedy span from the first `[` to the last `]` fails to parse, so the step
emits nothing and leaves the buffer unchanged (helper). -/
theorem geminiStep_stuck (buffer chunk s tail : List Char) (xs : List Json)
    (hb : buffer ++ chunk = s ++ tail)
    (hs : jsonParseChars s = some (.arr xs))
    (hsh : s.head? = some '[')
    (hth : tail.head? = some '[')
    (hcl : ']' ∈ tail) :
    geminiStep buffer chunk = ([], buffer ++ chunk) := by
  obtain ⟨s', rfl⟩ : ∃ s', s = '[' :: s' := by
    cases s with
    | nil => exact Option.noConfusion hsh
    | cons a s' =>
      have haa : a = '[' := Option.some.inj hsh
      subst haa
      exact ⟨s', rfl⟩
  obtain ⟨t', rfl⟩ : ∃ t', tail = '[' :: t' := by
    cases tail with
    | nil => exact Option.noConfusion hth
    | cons a t' =>
      have haa : a = '[' := Option.some.inj hth
      subst haa
      exact ⟨t', rfl⟩
  rw [geminiStep, hb]
  obtain ⟨k, hk⟩ : ∃ k,
      ('[' :: s' ++ '[' :: t').reverse.findIdx? (fun c => c = ']') = some k := by
    have hany : ('[' :: s' ++ '[' :: t').reverse.any (fun c => c = ']') = true := by
      rw [List.any_eq_true]
      exact ⟨']', by rw [List.mem_reverse]; exact List.mem_append_right _ hcl, by decide⟩
    have hiss := @List.findIdx?_isSome Char
      (('[' :: s' ++ '[' :: t').reverse) (fun c => c = ']')
    rw [hany] at hiss
    exact Option.isSome_iff_exists.mp hiss
  obtain ⟨hklt, hkp, hkmin⟩ := List.findIdx?_eq_some_iff_getElem.mp hk
  obtain ⟨n, hn, hnv⟩ := List.mem_iff_getElem.mp hcl
  have hblen : ('[' :: s' ++ '[' :: t').length = s'.length + t'.length + 2 := by
    simp only [List.length_append, List.length_cons]
    omega
  have hlen2 : ('[' :: s' ++ '[' :: t').reverse.length = s'.length + t'.length + 2 := by
    rw [List.length_reverse, hblen]
  have hpos : s'.length + 1 + n < ('[' :: s' ++ '[' :: t').length := by
    simp only [List.length_cons] at hn
    omega
  have hposv : ∀ (hh : s'.length + 1 + n < ('[' :: s' ++ '[' :: t').length),
      ('[' :: s' ++ '[' :: t')[s'.length + 1 + n] = ']' := by
    intro hh
    rw [List.getElem_append_right (by simp only [List.length_cons]; omega)]
    have harith : s'.length + 1 + n - ('[' :: s').length = n := by
      simp only [List.length_cons]
      omega
    simp only [harith]
    exact hnv
  have hrev : s'.length + t'.length + 2 - 1 - (s'.length + 1 + n)
      < ('[' :: s' ++ '[' :: t').reverse.length := by
    rw [hlen2]
    omega
  have hrevv : ∀ (hh : s'.length + t'.length + 2 - 1 - (s'.length + 1 + n)
        < ('[' :: s' ++ '[' :: t').reverse.length),
      ('[' :: s' ++ '[' :: t').reverse[s'.length + t'.length + 2 - 1
        - (s'.length + 1 + n)] = ']' := by
    intro hh
    rw [List.getElem_reverse]
    have harith : ('[' :: s' ++ '[' :: t').length - 1
        - (s'.length + t'.length + 2 - 1 - (s'.length + 1 + n))
        = s'.length + 1 + n := by
      rw [hblen]
      simp only [List.length_cons] at hn
      omega
    simp only [harith]
    exact hposv hpos
  have hkle : k ≤ s'.length + t'.length + 2 - 1 - (s'.length + 1 + n) := by
    by_contra hlt
    push_neg at hlt
    exact hkmin _ hlt (by rw [hrevv hrev]; rfl)
  have hjge : s'.length + 1 ≤ ('[' :: s' ++ '[' :: t').length - 1 - k := by
    rw [hblen]
    omega
  have hfo : firstOpenIdx ('[' :: s' ++ '[' :: t') = some 0 := by
    simp [firstOpenIdx, List.findIdx?_cons]
  have hlc : lastCloseIdx ('[' :: s' ++ '[' :: t')
      = some (('[' :: s' ++ '[' :: t').length - 1 - k) := by
    rw [lastCloseIdx, hk]
    rfl
  have hcond : 0 < ('[' :: s' ++ '[' :: t').length - 1 - k := by
    rw [hblen]
    omega
  simp only [geminiMatch, hfo, hlc, if_pos hcond, List.drop_zero, Nat.sub_zero]
  have htake : ('[' :: s' ++ '[' :: t').take (('[' :: s' ++ '[' :: t').length - 1 - k + 1)
      = ('[' :: s') ++ '[' :: t'.take
          (('[' :: s' ++ '[' :: t').length - 1 - k - (s'.length + 1)) := by
    rw [List.take_append_eq_append_take,
      List.take_of_length_le (by simp only [List.length_cons]; omega)]
    congr 1
    have harith : ('[' :: s' ++ '[' :: t').length - 1 - k + 1 - ('[' :: s').length
        = (('[' :: s' ++ '[' :: t').length - 1 - k - (s'.length + 1)) + 1 := by
      simp only [List.length_cons]
      rw [hblen]
      omega
    rw [harith, List.take_succ_cons]
  rw [htake, jsonParseChars_append_open _ _ _ hs]
/-- A stuck Gemini buffer stays stuck for the whole rest of the stream:
no event is ever emitted again (helper). -/
theorem geminiRun_stuck (future : List String) :
    ∀ (s tail : List Char) (xs : List Json),
      jsonParseChars s = some (.arr xs) → s.head? = some '[' →
      tail.head? = some '[' → ']' ∈ tail →
      geminiRun (s ++ tail) future = [] := by
  induction future with
  | nil =>
    intro s tail xs _ _ _ _
    rfl
  | cons c rest ih =>
    intro s tail xs hs hsh hth hcl
    have hth2 : (tail ++ c.toList).head? = some '[' := by
      cases tail with
      | nil => exact Option.noConfusion hth
      | cons a t' => simpa using hth
    have hstep := geminiStep_stuck (s ++ tail) c.toList s (tail ++ c.toList) xs
      (List.append_assoc s tail c.toList) hs hsh hth2 (List.mem_append_left _ hcl)
    rw [geminiRun]
    rw [hstep]
    dsimp only
    rw [List.nil_append, List.append_assoc]
    exact ih s (tail ++ c.toList) xs hs hsh hth2 (List.mem_append_left _ hcl)

/-- C10: when a chunk leaves the Gemini buffer holding two (or more)
complete top-level JSON arrays, the greedy bracket match spans from the
first `[` to the last `]`, that span is not valid JSON, so the step emits
no text event and leaves the buffer unchanged; no later chunk can ever
recover it, and on stream end only `[DONE]` is emitted — the text of those
arrays is silently dropped. -/
theorem C10_gemini_greedy_match_drops (s1 s2 : List Char) (xs1 xs2 : List Json)
    (future : List String)
    (h1 : jsonParseChars s1 = some (.arr xs1))
    (h2 : jsonParseChars s2 = some (.arr xs2))
    (hh1 : s1.head? = some '[') (hh2 : s2.head? = some '[')
    (hcl2 : ']' ∈ s2) :
    geminiStep [] (s1 ++ s2) = ([], s1 ++ s2) ∧
    geminiRun (s1 ++ s2) future = [] ∧
    geminiNormalize ⟨(s1 ++ s2).asString :: future, none⟩ = [.done] := by
  have hstep := geminiStep_stuck [] (s1 ++ s2) s1 s2 xs1 (List.nil_append _)
    h1 hh1 hh2 hcl2
  rw [List.nil_append] at hstep
  have hrun := geminiRun_stuck future s1 s2 xs1 h1 hh1 hh2 hcl2
  refine ⟨hstep, hrun, ?_⟩
  rw [geminiNormalize]
  simp only [Option.isSome_none, Bool.false_eq_true, if_false]
  rw [geminiRun]
  have htl : ((s1 ++ s2).asString).toList = s1 ++ s2 := rfl
  rw [htl, hstep]
  dsimp only
  rw [hrun]
  rfl
/-- C10 witness: the two concrete single-text arrays arriving in one
chunk are dropped entirely. -/
theorem C10_gemini_greedy_match_drops_witness :
    geminiStep []
        ("[\x7b\"candidates\":[\x7b\"content\":\x7b\"parts\":[\x7b\"text\":\"He\"\x7d]\x7d\x7d]\x7d]".toList
          ++ "[\x7b\"candidates\":[\x7b\"content\":\x7b\"parts\":[\x7b\"text\":\"llo\"\x7d]\x7d\x7d]\x7d]".toList)
      = ([], "[\x7b\"candidates\":[\x7b\"content\":\x7b\"parts\":[\x7b\"text\":\"He\"\x7d]\x7d\x7d]\x7d]".toList
          ++ "[\x7b\"candidates\":[\x7b\"content\":\x7b\"parts\":[\x7b\"text\":\"llo\"\x7d]\x7d\x7d]\x7d]".toList) ∧
    geminiRun
        ("[\x7b\"candidates\":[\x7b\"content\":\x7b\"parts\":[\x7b\"text\":\"He\"\x7d]\x7d\x7d]\x7d]".toList
          ++ "[\x7b\"candidates\":[\x7b\"content\":\x7b\"parts\":[\x7b\"text\":\"llo\"\x7d]\x7d\x7d]\x7d]".toList)
        ["[]"] = [] ∧
    geminiNormalize
        ⟨("[\x7b\"candidates\":[\x7b\"content\":\x7b\"parts\":[\x7b\"text\":\"He\"\x7d]\x7d\x7d]\x7d]".toList
          ++ "[\x7b\"candidates\":[\x7b\"content\":\x7b\"parts\":[\x7b\"text\":\"llo\"\x7d]\x7d\x7d]\x7d]".toList).asString
            :: ["[]"], none⟩
      = [.done] :=
  C10_gemini_greedy_match_drops
    "[\x7b\"candidates\":[\x7b\"content\":\x7b\"parts\":[\x7b\"text\":\"He\"\x7d]\x7d\x7d]\x7d]".toList
    "[\x7b\"candidates\":[\x7b\"content\":\x7b\"parts\":[\x7b\"text\":\"llo\"\x7d]\x7d\x7d]\x7d]".toList
    [Json.obj [("candidates", Json.arr [Json.obj [("content", Json.obj
      [("parts", Json.arr [Json.obj [("text", Json.str "He")]])])]])]]
    [Json.obj [("candidates", Json.arr [Json.obj [("content", Json.obj
      [("parts", Json.arr [Json.obj [("text", Json.str "llo")]])])]])]]
    ["[]"] rfl rfl rfl rfl (by decide)

/-- The Claude read loop emits no `[DONE]` among its text events (helper). -/
theorem claudeTextEvents_countP (chunks : List ClaudeChunk) :
    (claudeTextEvents chunks).countP isDoneEv = 0 := by
  rw [List.countP_eq_zero]
  intro e he
  simp only [claudeTextEvents, List.mem_filterMap] at he
  obtain ⟨c, -, hc⟩ := he
  split at hc
  · cases hc
    simp [isDoneEv]
  · cases hc

/-- A line event of the OpenAI/Grok loop is always a text event (helper). -/
theorem openaiLineEvent_shape (p : String) (l : List Char) (e : Event)
    (h : openaiLineEvent p l = some e) : ∃ c, e = .text c p := by
  rw [openaiLineEvent] at h
  split at h
  · dsimp only at h
    split at h
    · cases h
    · split at h
      · split at h
        · split at h
          · cases h
            exact ⟨_, rfl⟩
          · cases h
        · cases h
      · cases h
  · cases h

/-- A Gemini item event is always a text event (helper). -/
theorem geminiItemEvent_shape (item : Json) (e : Event)
    (h : geminiItemEvent item = some e) : ∃ t, e = .text t "gemini" := by
  rw [geminiItemEvent] at h
  split at h
  · split at h
    · cases h
      exact ⟨_, rfl⟩
    · cases h
  · cases h

/-- The OpenAI/Grok chunk loop emits no `[DONE]` (helper). -/
theorem openaiChunkEvents_countP (p : String) (chunks : List String) :
    ((chunks.map (openaiChunkEvents p)).flatten).countP isDoneEv = 0 := by
  rw [List.countP_eq_zero]
  intro e he
  simp only [List.mem_flatten, List.mem_map] at he
  obtain ⟨-, ⟨c, -, rfl⟩, he⟩ := he
  simp only [openaiChunkEvents, List.mem_filterMap] at he
  obtain ⟨l, -, hl⟩ := he
  obtain ⟨v, rfl⟩ := openaiLineEvent_shape p l e hl
  simp [isDoneEv]

/-- One Gemini step emits no `[DONE]` (helper). -/
theorem geminiStep_countP (b c : List Char) :
    ((geminiStep b c).1).countP isDoneEv = 0 := by
  rw [List.countP_eq_zero]
  intro e he
  rw [geminiStep] at he
  split at he
  · cases he
  · dsimp only at he
    split at he
    · simp only [List.mem_filterMap] at he
      obtain ⟨item, -, hitem⟩ := he
      obtain ⟨t, rfl⟩ := geminiItemEvent_shape item e hitem
      simp [isDoneEv]
    · cases he

/-- The whole Gemini loop emits no `[DONE]` (helper). -/
theorem geminiRun_countP (chunks : List String) (buffer : List Char) :
    (geminiRun buffer chunks).countP isDoneEv = 0 := by
  induction chunks generalizing buffer with
  | nil => rfl
  | cons c rest ih =>
    rw [geminiRun, List.countP_append, geminiStep_countP, ih]

/-- C1 counterexample: a Claude upstream stream that throws immediately
(message `boom`) produces exactly one `error` event and no `[DONE]` at all —
the catch branch closes the controller without the terminal marker. -/
theorem C1_error_no_done_counterexample :
    claudeNormalize ⟨[], some "boom", none⟩ "claude-sonnet-4-5-20250514"
        = [.error "boom"] ∧
    (claudeNormalize ⟨[], some "boom", none⟩
        "claude-sonnet-4-5-20250514").countP isDoneEv = 0 :=
  ⟨rfl, rfl⟩

/-- C1 (amended): when the upstream iteration completes without throwing,
each normalizer's output ends with exactly one `[DONE]` and contains no
event after it; when the Claude iteration throws mid-stream, the normalizer
emits the text events so far and one `error` event carrying the failure
message, and closes without emitting `[DONE]`. -/
theorem C1_amended (u : ClaudeUpstream) (modelId p : String)
    (bu : ByteUpstream) :
    (u.err = none → (claudeNormalize u modelId).countP isDoneEv = 1 ∧
      (claudeNormalize u modelId).getLast? = some .done) ∧
    (∀ m, u.err = some m →
      claudeNormalize u modelId = claudeTextEvents u.chunks ++ [.error m] ∧
      (claudeNormalize u modelId).countP isDoneEv = 0) ∧
    (bu.err = none → (openaiNormalize p bu).countP isDoneEv = 1 ∧
      (openaiNormalize p bu).getLast? = some .done) ∧
    (bu.err = none → (geminiNormalize bu).countP isDoneEv = 1 ∧
      (geminiNormalize bu).getLast? = some .done) := by
  refine ⟨?_, ?_, ?_, ?_⟩
  · intro he
    rw [claudeNormalize, he]
    constructor
    · rw [List.countP_append, List.countP_append, claudeTextEvents_countP]
      split <;> rfl
    · rw [List.append_assoc, List.getLast?_append_of_ne_nil, List.getLast?_concat]
      simp
  · intro m hm
    rw [claudeNormalize, hm]
    exact ⟨rfl, by rw [List.countP_append, claudeTextEvents_countP]; rfl⟩
  · intro he
    rw [openaiNormalize, he]
    constructor
    · rw [List.countP_append, openaiChunkEvents_countP]
      rfl
    · rw [List.getLast?_append_of_ne_nil]
      · rfl
      · simp
  · intro he
    rw [geminiNormalize, he]
    constructor
    · rw [List.countP_append, geminiRun_countP]
      rfl
    · rw [List.getLast?_append_of_ne_nil]
      · rfl
      · simp

/-- C1 witness: the amended clauses at concrete upstream streams. -/
theorem C1_amended_witness :
    ((claudeNormalize ⟨[], none, none⟩ "m").countP isDoneEv = 1 ∧
      (claudeNormalize ⟨[], none, none⟩ "m").getLast? = some .done) ∧
    (claudeNormalize ⟨[], some "boom", none⟩ "m"
        = claudeTextEvents [] ++ [.error "boom"] ∧
      (claudeNormalize ⟨[], some "boom", none⟩ "m").countP isDoneEv = 0) ∧
    ((openaiNormalize "openai" ⟨["data: x"], none⟩).countP isDoneEv = 1 ∧
      (openaiNormalize "openai" ⟨["data: x"], none⟩).getLast? = some .done) :=
  ⟨(C1_amended ⟨[], none, none⟩ "m" "openai" ⟨["data: x"], none⟩).1 rfl,
   (C1_amended ⟨[], some "boom", none⟩ "m" "openai"
      ⟨["data: x"], none⟩).2.1 "boom" rfl,
   (C1_amended ⟨[], none, none⟩ "m" "openai" ⟨["data: x"], none⟩).2.2.1 rfl⟩

/-- C5: a `data: ` line of the OpenAI/Grok normalizer yields an event
exactly when its payload is not the upstream terminal marker, parses as
JSON, and carries a present, truthy `choices[0].delta.content` — and then
the event is precisely that content as a text event; the upstream `[DONE]`
marker is never forwarded; a malformed fragment (here the example line
`data: {"choices":[{"delta":{"content":"hi"}}]}` split across two chunks)
is dropped silently without aborting anything, while the intact line yields
its text event. -/
theorem C5_sse_line_normalizer (provider : String) (line : List Char)
    (e : Event) (chunks : List String) :
    (openaiLineEvent provider line = some e ↔
      (startsWithData line = true ∧ line.drop 6 ≠ "[DONE]".toList ∧
        ∃ j c, jsonParseChars (line.drop 6) = some j ∧
          choicesDeltaContent j = some c ∧ jsTruthy c = true ∧
          e = .text c provider)) ∧
    ((chunks.map (openaiChunkEvents provider)).flatten).countP isDoneEv = 0 ∧
    openaiChunkEvents provider "data: \x7b\"choic" = [] ∧
    openaiChunkEvents provider "es\":[\x7b\"delta\":\x7b\"content\":\"hi\"\x7d\x7d]\x7d" = [] ∧
    openaiChunkEvents provider
        "data: \x7b\"choices\":[\x7b\"delta\":\x7b\"content\":\"hi\"\x7d\x7d]\x7d\n\n"
      = [.text (.str "hi") provider] := by
  refine ⟨?_, openaiChunkEvents_countP provider chunks, rfl, rfl, rfl⟩
  constructor
  · intro h
    rw [openaiLineEvent] at h
    split at h
    · dsimp only at h
      split at h
      · cases h
      · refine ⟨by assumption, by assumption, ?_⟩
        split at h
        · split at h
          · split at h
            · cases h
              exact ⟨_, _, by assumption, by assumption, by assumption, rfl⟩
            · cases h
          · cases h
        · cases h
    · cases h
  · rintro ⟨h1, h2, j, c, hj, hc, ht, rfl⟩
    rw [openaiLineEvent]
    simp only [h1, if_true, if_neg h2, hj, hc, ht, if_true]

/-- C6: feeding the two complete Gemini array chunks carrying `"He"` and
`"llo"` as separate chunks yields exactly the two text events in that order
followed by `[DONE]`; and for any finite upstream chunk list that ends
cleanly, `[DONE]` is emitted exactly once, at the very end, regardless of
leftover unparsed buffer content. -/
theorem C6_gemini_concatenated_arrays (chunks : List String) :
    geminiNormalize
        ⟨["[\x7b\"candidates\":[\x7b\"content\":\x7b\"parts\":[\x7b\"text\":\"He\"\x7d]\x7d\x7d]\x7d]",
          "[\x7b\"candidates\":[\x7b\"content\":\x7b\"parts\":[\x7b\"text\":\"llo\"\x7d]\x7d\x7d]\x7d]"],
          none⟩
      = [.text (.str "He") "gemini", .text (.str "llo") "gemini", .done] ∧
    (geminiNormalize ⟨chunks, none⟩).countP isDoneEv = 1 ∧
    (geminiNormalize ⟨chunks, none⟩).getLast? = some .done := by
  refine ⟨rfl, ?_, ?_⟩
  · rw [geminiNormalize]
    simp only [Option.isSome_none, Bool.false_eq_true, if_false]
    rw [List.countP_append, geminiRun_countP]
    rfl
  · rw [geminiNormalize]
    simp only [Option.isSome_none, Bool.false_eq_true, if_false]
    rw [List.getLast?_append_of_ne_nil]
    · rfl
    · simp

/-- `fixed6` through a computed floor value (helper). -/
theorem fixed6_eq (q : ℚ) (n : ℕ) (h : ⌊q * 1000000 + 1 / 2⌋ = (n : ℤ)) :
    fixed6 q = Nat.repr (n / 1000000) ++ "." ++ pad6 (n % 1000000) := by
  simp only [fixed6]
  rw [h, Int.toNat_natCast]

/-- Every `digitCh` is a decimal digit (helper). -/
theorem digitCh_isDigit (d : Nat) : (digitCh d).isDigit = true := by
  have hd : d % 10 < 10 := Nat.mod_lt _ (by norm_num)
  rw [digitCh]
  set k := d % 10 with hk
  interval_cases k <;> decide

/-- `toFixed6` of an exact value is always a fixed six-decimal string
(helper). -/
theorem sixDecimal_toFixed6 (q : ℚ) : SixDecimalStr (toFixed6 (some q)) := by
  have hpad : ∀ m : Nat, (pad6 m).length = 6 ∧
      (pad6 m).toList.all (fun c => c.isDigit) = true := by
    intro m
    refine ⟨rfl, ?_⟩
    simp only [pad6, List.all_eq_true]
    intro c hc
    simp only [String.toList] at hc
    fin_cases hc <;> exact digitCh_isDigit _
  rw [toFixed6]
  split
  · refine ⟨"-" ++ Nat.repr ((⌊-q * 1000000 + 1 / 2⌋).toNat / 1000000),
      pad6 ((⌊-q * 1000000 + 1 / 2⌋).toNat % 1000000), ?_, (hpad _).1, (hpad _).2⟩
    rw [fixed6]
    simp [String.append_assoc]
  · exact ⟨Nat.repr ((⌊q * 1000000 + 1 / 2⌋).toNat / 1000000),
      pad6 ((⌊q * 1000000 + 1 / 2⌋).toNat % 1000000), rfl, (hpad _).1, (hpad _).2⟩

/-- C7 counterexample: with the reachable pricing row of `gpt-4o` (selected
by the Claude branch when the request overrides the model to `gpt-4o`), the
cache fields of the row are absent, the JS arithmetic produces `NaN`, and
four of the six monetary figures are the string `"NaN"` — not a fixed
six-decimal-place string. -/
theorem C7_cost_nan_counterexample :
    claudePricingFor "gpt-4o" = ⟨2.50, 10.00, none, none⟩ ∧
    computeCost ⟨0, 0, none, none⟩ (claudePricingFor "gpt-4o")
        = ⟨"0.000000", "0.000000", "NaN", "NaN", "NaN", "NaN"⟩ ∧
    ¬ SixDecimalStr "NaN" := by
  have hrow : claudePricingFor "gpt-4o" = ⟨2.50, 10.00, none, none⟩ := by
    rw [claudePricingFor, PRICING,
      if_neg (by decide), if_neg (by decide), if_pos rfl]
  have hz : ((0 : ℕ) : ℚ) / 1000000 * (2.50 : ℚ) = 0 := by norm_num
  have hz2 : ((0 : ℕ) : ℚ) / 1000000 * (10.00 : ℚ) = 0 := by norm_num
  have hfl : ⌊(0 : ℚ) * 1000000 + 1 / 2⌋ = ((0 : ℕ) : ℤ) := by
    rw [Int.floor_eq_iff] <;> norm_num
  have hfx : toFixed6 (some (0 : ℚ)) = "0.000000" := by
    rw [toFixed6, if_neg (by norm_num), fixed6_eq 0 0 hfl]
    rfl
  refine ⟨hrow, ?_, ?_⟩
  · rw [hrow]
    simp only [computeCost, jadd, jmul, jsub, Option.getD]
    rw [hz, hz2, hfx]
    rfl
  · rintro ⟨a, b, hab, hb6, -⟩
    have hlen : ("NaN" : String).length = (a ++ "." ++ b).length := by rw [hab]
    have h3 : ("NaN" : String).length = 3 := rfl
    have h1 : ("." : String).length = 1 := rfl
    rw [String.length_append, String.length_append, h1, hb6] at hlen
    omega

/-- C7 (amended): for every usage record and every pricing row that carries
both cache prices (true of every Claude row, and of the fallback row), the
cost block computes exactly the claimed formulas — per-category costs,
their sum, and `cacheRead/1e6 * (input - cacheRead price)` as savings — and
renders every figure with `toFixed(6)` as a fixed six-decimal string; a
model without a pricing row falls back to the default Claude model's row;
and one million input tokens at input price 3.00 cost `"3.000000"`.  When a
cache price is absent (the OpenAI rows), the corresponding figures are
`"NaN"` instead. -/
theorem C7_amended (usage : Usage) (row : PricingRow) (cw cr : ℚ)
    (hcw : row.cache_write = some cw) (hcr : row.cache_read = some cr) :
    computeCost usage row =
      { input := toFixed6 (some ((usage.input_tokens : ℚ) / 1000000 * row.input))
        output := toFixed6 (some ((usage.output_tokens : ℚ) / 1000000 * row.output))
        cache_write := toFixed6 (some
          ((usage.cache_creation_input_tokens.getD 0 : ℚ) / 1000000 * cw))
        cache_read := toFixed6 (some
          ((usage.cache_read_input_tokens.getD 0 : ℚ) / 1000000 * cr))
        total := toFixed6 (some ((usage.input_tokens : ℚ) / 1000000 * row.input
          + (usage.output_tokens : ℚ) / 1000000 * row.output
          + (usage.cache_creation_input_tokens.getD 0 : ℚ) / 1000000 * cw
          + (usage.cache_read_input_tokens.getD 0 : ℚ) / 1000000 * cr))
        savings := toFixed6 (some
          ((usage.cache_read_input_tokens.getD 0 : ℚ) / 1000000
            * (row.input - cr))) } ∧
    (SixDecimalStr (computeCost usage row).input ∧
      SixDecimalStr (computeCost usage row).output ∧
      SixDecimalStr (computeCost usage row).cache_write ∧
      SixDecimalStr (computeCost usage row).cache_read ∧
      SixDecimalStr (computeCost usage row).total ∧
      SixDecimalStr (computeCost usage row).savings) ∧
    (∀ m, PRICING m = none →
      claudePricingFor m = ⟨3.00, 15.00, some 3.75, some 0.30⟩) ∧
    (computeCost ⟨1000000, 0, none, none⟩
        ⟨3.00, 15.00, some 3.75, some 0.30⟩).input = "3.000000" := by
  have hmain : computeCost usage row =
      { input := toFixed6 (some ((usage.input_tokens : ℚ) / 1000000 * row.input))
        output := toFixed6 (some ((usage.output_tokens : ℚ) / 1000000 * row.output))
        cache_write := toFixed6 (some
          ((usage.cache_creation_input_tokens.getD 0 : ℚ) / 1000000 * cw))
        cache_read := toFixed6 (some
          ((usage.cache_read_input_tokens.getD 0 : ℚ) / 1000000 * cr))
        total := toFixed6 (some ((usage.input_tokens : ℚ) / 1000000 * row.input
          + (usage.output_tokens : ℚ) / 1000000 * row.output
          + (usage.cache_creation_input_tokens.getD 0 : ℚ) / 1000000 * cw
          + (usage.cache_read_input_tokens.getD 0 : ℚ) / 1000000 * cr))
        savings := toFixed6 (some
          ((usage.cache_read_input_tokens.getD 0 : ℚ) / 1000000
            * (row.input - cr))) } := by
    simp only [computeCost, hcw, hcr, jadd, jmul, jsub]
  refine ⟨hmain, ?_, ?_, ?_⟩
  · rw [hmain]
    exact ⟨sixDecimal_toFixed6 _, sixDecimal_toFixed6 _, sixDecimal_toFixed6 _,
      sixDecimal_toFixed6 _, sixDecimal_toFixed6 _, sixDecimal_toFixed6 _⟩
  · intro m hm
    rw [claudePricingFor, hm]
  · have hval : ((1000000 : ℕ) : ℚ) / 1000000 * (3.00 : ℚ) = 3 := by norm_num
    have hfl : ⌊(3 : ℚ) * 1000000 + 1 / 2⌋ = ((3000000 : ℕ) : ℤ) := by
      rw [Int.floor_eq_iff] <;> norm_num
    simp only [computeCost, jadd, jmul, jsub, Option.getD]
    rw [hval, toFixed6, if_neg (by norm_num), fixed6_eq 3 3000000 hfl]
    rfl

/-- C7 witness: the amended theorem applied to the default Claude pricing
row, whose cache-price hypotheses hold by construction. -/
theorem C7_amended_witness :
    (computeCost ⟨1000000, 0, none, none⟩
        ⟨3.00, 15.00, some 3.75, some 0.30⟩).input = "3.000000" :=
  (C7_amended ⟨1000000, 0, none, none⟩ ⟨3.00, 15.00, some 3.75, some 0.30⟩
    3.75 0.30 rfl rfl).2.2.2

/-- C3 (amended): the translators perform no input validation — an empty
message list is forwarded upstream as an empty message section, and a
missing model resolves silently to the provider's default model. -/
theorem C3_amended (sys : Option String) (msgs : List Message) :
    (handleClaude [] sys none).messages = [] ∧
    (handleGemini [] sys none).contents = [] ∧
    (handleOpenAI [] none none).messages = [] ∧
    (handleGrok [] none none).messages = [] ∧
    (handleClaude msgs sys none).model = "claude-sonnet-4-5-20250514" ∧
    (handleOpenAI msgs sys none).model = "gpt-4o" ∧
    (handleGrok msgs sys none).model = "grok-beta" ∧
    (handleGemini msgs sys none).modelId = "gemini-1.5-pro" := by
  refine ⟨rfl, rfl, rfl, rfl, rfl, rfl, rfl, rfl⟩

end Soma
